import Mathlib

/-!
# Verification of hyparquet byte-range I/O utilities (`src/utils.js`)

Shallow embedding of the byte-range I/O layer of the repository:
`cacheKey`, `cachedAsyncBuffer`, `extent`, `asyncBufferFromUrl.slice` and
`byteRangesFromUrl`, together with theorems settling the specification
claims about them.

JavaScript numbers used in these functions are integers, embedded as `Int`
(or `Nat` where the source guarantees non-negativity); `undefined`
arguments are embedded as `Option.none`; thrown exceptions as
`Except.error`; byte buffers as `List Nat` (each element a byte value
0..255).
-/

namespace Hyparquet

/-! ## cacheKey (src/utils.js lines 325-338)

```js
function cacheKey(start, end, size) {
  if (start < 0) {
    if (end !== undefined) throw new Error(`invalid suffix range [${start}, ${end}]`)
    if (size === undefined) return `${start},`
    return `${size + start},${size}`
  } else if (end !== undefined) {
    if (start > end) throw new Error(`invalid empty range [${start}, ${end}]`)
    return `${start},${end}`
  } else if (size === undefined) {
    return `${start},`
  } else {
    return `${start},${size}`
  }
}
```
-/

/-- Embedding of `cacheKey(start, end, size)`. Keys are rendered exactly as
the template literals in the source render them; a thrown `Error` is an
`Except.error`. -/
def cacheKey (start : Int) (endOpt : Option Int) (size : Option Int) :
    Except String String :=
  if start < 0 then
    match endOpt with
    | some e => .error ("invalid suffix range [" ++ toString start ++ ", " ++ toString e ++ "]")
    | none =>
      match size with
      | none => .ok (toString start ++ ",")
      | some sz => .ok (toString (sz + start) ++ "," ++ toString sz)
  else
    match endOpt with
    | some e =>
      if start > e then
        .error ("invalid empty range [" ++ toString start ++ ", " ++ toString e ++ "]")
      else
        .ok (toString start ++ "," ++ toString e)
    | none =>
      match size with
      | none => .ok (toString start ++ ",")
      | some sz => .ok (toString start ++ "," ++ toString sz)

/-! ## cachedAsyncBuffer (src/utils.js lines 293-312)

```js
function cachedAsyncBuffer({ byteLength, slice }) {
  const cache = new Map()
  return {
    byteLength,
    slice(start, end) {
      const key = cacheKey(start, end, byteLength)
      const cached = cache.get(key)
      if (cached) return cached
      // cache miss, read from file
      const promise = slice(start, end)
      cache.set(key, promise)
      return promise
    },
  }
}
```

The wrapper's mutable `Map` is embedded as explicit state: an association
list from key strings to promise identifiers.  Each invocation of the
underlying `slice` produces a fresh promise; we record the underlying
invocations in order (`reads`) and identify the promise returned by the
`i`-th underlying invocation with the number `i`.  JavaScript runs the
body of `slice` synchronously up to returning the promise, so a sequence
of (possibly concurrently awaited) `slice` calls is a sequence of atomic
state transitions. -/

structure CacheState where
  /-- the `cache` Map: key string ↦ promise returned for that key -/
  cache : List (String × Nat)
  /-- arguments of the underlying `slice` invocations issued so far, in order -/
  reads : List (Int × Option Int)
  deriving Repr, DecidableEq

/-- The empty cache state (`new Map()`, no physical reads yet). -/
def CacheState.init : CacheState := ⟨[], []⟩

/-- One call `slice(start, end)` on the object returned by
`cachedAsyncBuffer` for a file of length `byteLength`.  Returns the
promise identifier handed back to the caller and the state after the
call; a `cacheKey` throw propagates as `Except.error` and performs no
read. -/
def cachedSlice (byteLength : Int) (s : CacheState) (start : Int)
    (endOpt : Option Int) : Except String (Nat × CacheState) :=
  match cacheKey start endOpt (some byteLength) with
  | .error e => .error e
  | .ok key =>
    match s.cache.lookup key with
    | some cached => .ok (cached, s)
    | none =>
      let promise := s.reads.length
      .ok (promise, { cache := (key, promise) :: s.cache,
                      reads := s.reads ++ [(start, endOpt)] })

/-- Run a sequence of `slice` calls against the cached buffer, starting
from state `s`; a call that throws leaves the state unchanged. -/
def runSlices (byteLength : Int) (s : CacheState)
    (reqs : List (Int × Option Int)) : CacheState :=
  reqs.foldl (fun st req =>
    match cachedSlice byteLength st req.1 req.2 with
    | .error _ => st
    | .ok (_, st') => st') s

/-! ## extent (src/utils.js lines 64-71)

```js
function extent(array) {
  let min, max = array[0]
  for (const value of array) {
    if (value < min) min = value
    if (value > max) max = value
  }
  return [min, max]
}
```

Note `let min, max = array[0]` declares `min` without an initializer, so
`min` starts as `undefined` (not `array[0]`).  A JavaScript `<` or `>`
comparison against `undefined` is always false.  We embed possibly-
`undefined` numbers as `Option Int` and those comparison semantics
exactly. -/

/-- JavaScript `value < m` where `m` may be `undefined` (always false
against `undefined`). -/
def jsLtOpt (value : Int) (m : Option Int) : Bool :=
  match m with
  | none => false
  | some x => value < x

/-- JavaScript `value > m` where `m` may be `undefined` (always false
against `undefined`). -/
def jsGtOpt (value : Int) (m : Option Int) : Bool :=
  match m with
  | none => false
  | some x => value > x

/-- Embedding of `extent(array)` for an array of numbers: `min` starts
`undefined` (`none`), `max` starts as `array[0]` (`undefined` when the
array is empty). -/
def extent (array : List Int) : Option Int × Option Int :=
  array.foldl
    (fun mm value =>
      (if jsLtOpt value mm.1 then some value else mm.1,
       if jsGtOpt value mm.2 then some value else mm.2))
    (none, array.head?)

/-! ## JavaScript string and buffer primitives

`byteRangesFromUrl` decodes the binary response with
`new TextDecoder('ascii', { fatal: true })`.  The WHATWG `ascii` label is
the windows-1252 decoder: every one of the 256 byte values decodes to
exactly one character (it never throws), and the mapping is injective and
position-preserving, with bytes 0x00–0x7F mapping to the identical ASCII
code points.  All string patterns the source searches for are pure ASCII,
so we embed both the binary buffer and its decoded text as the same
`List Nat` of byte values; character positions and byte positions
coincide, exactly the 1:1 mapping the source relies on.  The only
windows-1252 characters in the JavaScript whitespace class `\s` (and
`String.trim`) are the bytes 0x09–0x0D, 0x20 and 0xA0 (U+00A0), and the
only ECMAScript LineTerminator characters reachable from single bytes are
0x0A and 0x0D. -/

/-- The bytes of an ASCII string literal. -/
def strBytes (s : String) : List Nat := s.data.map Char.toNat

/-- JavaScript whitespace (`\s`, `String.trim`) restricted to characters
reachable from one windows-1252 byte. -/
def isJsWs (c : Nat) : Bool :=
  c = 9 || c = 10 || c = 11 || c = 12 || c = 13 || c = 32 || c = 160

/-- ECMAScript LineTerminator characters reachable from one windows-1252
byte (`\n` and `\r`; U+2028/U+2029 are not single-byte). -/
def isLineTerm (c : Nat) : Bool := c = 10 || c = 13

/-- `String.prototype.trim`. -/
def jsTrim (l : List Nat) : List Nat :=
  ((l.dropWhile isJsWs).reverse.dropWhile isJsWs).reverse

/-- Clamp a relative `ArrayBuffer.slice` index: a negative index counts
from the end, and both ends are clamped into `[0, len]`. -/
def jsRel (len : Nat) (x : Int) : Nat :=
  if x < 0 then (len + x).toNat else min x.toNat len

/-- `ArrayBuffer.prototype.slice(start, end)`. -/
def jsArraySlice (l : List Nat) (start endE : Int) : List Nat :=
  (l.drop (jsRel l.length start)).take (jsRel l.length endE - jsRel l.length start)

/-- `String.prototype.split` with a (non-empty, in all uses below) string
separator: cut at each non-overlapping occurrence, scanning left to
right.  The fuel argument is only a structural-recursion bound: every
step consumes at least one character, so starting the fuel at the text
length the zero-fuel case is never reached. -/
def splitOnListAux (sep : List Nat) : Nat → List Nat → List Nat → List (List Nat)
  | _, [], acc => [acc.reverse]
  | 0, text, acc => [acc.reverse ++ text]
  | fuel + 1, c :: rest, acc =>
    if sep.isPrefixOf (c :: rest) then
      acc.reverse :: splitOnListAux sep fuel (rest.drop (sep.length - 1)) []
    else
      splitOnListAux sep fuel rest (c :: acc)

/-- `text.split(sep)`. -/
def splitOnList (sep text : List Nat) : List (List Nat) :=
  splitOnListAux sep text.length text []

/-- `String.prototype.includes`. -/
def containsSub (text sub : List Nat) : Bool :=
  match text with
  | [] => sub.isEmpty
  | _ :: rest => sub.isPrefixOf text || containsSub rest sub

/-- Smallest index `i ≥ start` at which `sub` occurs in the remaining
text `t` (which is the original text with its first `start` characters
dropped). -/
def indexOfAux (sub : List Nat) (t : List Nat) (i : Nat) : Option Nat :=
  match t with
  | [] => if sub.isEmpty then some i else none
  | c :: rest =>
    if sub.isPrefixOf (c :: rest) then some i else indexOfAux sub rest (i + 1)

/-- `String.prototype.indexOf(sub, fromIndex)`: the fromIndex is clamped
into `[0, length]`; returns `-1` when absent. -/
def jsIndexOfFrom (text sub : List Nat) (fromIx : Int) : Int :=
  match indexOfAux sub (text.drop (min fromIx.toNat text.length))
      (min fromIx.toNat text.length) with
  | some i => (i : Nat)
  | none => -1

/-- ASCII lower-casing of one byte, for the `/i` regexp flag. -/
def toLowerByte (c : Nat) : Nat := if 65 ≤ c ∧ c ≤ 90 then c + 32 else c

/-- Case-insensitive match of the (lower-case, ASCII) pattern `pat` at the
start of `t`. -/
def ciPrefixAt (pat t : List Nat) : Bool :=
  (t.take pat.length).map toLowerByte == pat

/-- ASCII decimal digit. -/
def isDigitByte (c : Nat) : Bool := 48 ≤ c && c ≤ 57

/-- Numeric value of a decimal digit string (`+str` on a digit string). -/
def digitsToNat (l : List Nat) : Nat :=
  l.foldl (fun n c => n * 10 + (c - 48)) 0

/-! ## byteRangesFromUrl (src/utils.js lines 151-215) -/

/-- The regexp `/bytes (\d+)-(\d+)/i` anchored at the start of `t`
(with both digit groups captured greedily, i.e. maximal digit runs). -/
def matchBytesAt (t : List Nat) : Option (Nat × Nat) :=
  if ciPrefixAt (strBytes "bytes ") t then
    let rest := t.drop (strBytes "bytes ").length
    let d1 := rest.takeWhile isDigitByte
    if d1 ≠ [] then
      match rest.drop d1.length with
      | 45 :: rest3 =>
        let d2 := rest3.takeWhile isDigitByte
        if d2 ≠ [] then some (digitsToNat d1, digitsToNat d2) else none
      | _ => none
    else none
  else none

/-- The greedy `.*` between `content-range:` and `bytes …`: `.` matches
any character except a LineTerminator, and greediness selects the
rightmost `bytes (\d+)-(\d+)` reachable without crossing a
LineTerminator. -/
def scanLine (t : List Nat) : Option (Nat × Nat) :=
  match t with
  | [] => none
  | c :: rest =>
    if isLineTerm c then none
    else
      match scanLine rest with
      | some r => some r
      | none => matchBytesAt (c :: rest)

/-- First match of `/content-range:.*bytes (\d+)-(\d+)/i` (leftmost
occurrence of `content-range:` whose line completes the pattern),
returning the two captured numbers. -/
def findContentRange (t : List Nat) : Option (Nat × Nat) :=
  match t with
  | [] => none
  | _ :: rest =>
    if ciPrefixAt (strBytes "content-range:") t then
      match scanLine (t.drop (strBytes "content-range:").length) with
      | some r => some r
      | none => findContentRange rest
    else findContentRange rest

/-- First match of `/^--([^\s]+)$/` anchored at position 0 of `t` in
multiline mode: `--`, then a maximal non-empty run of non-whitespace
characters, followed by a LineTerminator or the end of the string;
returns the captured run.  (Since the regexp engine scans match start
positions left to right, `boundaryMatch?.index === 0` holds exactly when
this anchored match succeeds.)  `boundaryRun` is the greedy `([^\s]+)`
candidate: the maximal whitespace-free run after `--`. -/
def boundaryRun (t : List Nat) : List Nat :=
  (t.drop 2).takeWhile (fun c => !isJsWs c)

/-- What follows the captured run (the rest of the text from the first
whitespace character on). -/
def boundaryAfter (t : List Nat) : List Nat :=
  (t.drop 2).drop (boundaryRun t).length

/-- See the doc comment above `boundaryRun`. -/
def boundaryLineAt (t : List Nat) : Option (List Nat) :=
  if (strBytes "--").isPrefixOf t then
    if boundaryRun t ≠ [] ∧
        (boundaryAfter t = [] ∨ isLineTerm ((boundaryAfter t).headD 0) = true) then
      some (boundaryRun t)
    else none
  else none

/-- The multipart boundary the source settles on (`null` is `none`; note
the later `if (!boundary)` check also treats an empty string as absent).

```js
if (trustContentType) {
  const contentType = response.headers.get('content-type') || ''
  boundary = contentType.includes('boundary=') ? contentType.split('boundary=')[1].trim() : null
} else {
  const trimmed = responseText.trim()
  const boundaryMatch = trimmed.match(/^--([^\s]+)$/m)
  boundary = boundaryMatch?.index === 0 && trimmed.endsWith(`--${boundaryMatch[1]}--`) ? boundaryMatch[1] : null
}
```
-/
def detectBoundary (trust : Bool) (contentType : Option (List Nat))
    (text : List Nat) : Option (List Nat) :=
  if trust then
    if containsSub (contentType.getD []) (strBytes "boundary=") then
      some (jsTrim ((splitOnList (strBytes "boundary=") (contentType.getD [])).getD 1 []))
    else none
  else
    match boundaryLineAt (jsTrim text) with
    | some b =>
      if (strBytes "--" ++ b ++ strBytes "--").isSuffixOf (jsTrim text) then some b
      else none
    | none => none

/-- `part.replace(/\r\n$/, '')`. -/
def stripTrailingCrlf (l : List Nat) : List Nat :=
  if (strBytes "\r\n").isSuffixOf l then l.take (l.length - 2) else l

/-- The `[headers, content]` decomposition of one multipart part:
`part.split('\r\n\r\n').map(p => p.replace(/\r\n$/, ''))` destructured to
its first two elements (`content` is `undefined` when the part has no
blank line). -/
def mpSegments (part : List Nat) : List (List Nat) :=
  ((splitOnList (strBytes "\r\n\r\n") part).map stripTrailingCrlf)

/-- The parts of the multipart body:
`responseText.split('--' + boundary).filter(part => part.trim() && !part.includes('--\r\n'))`
followed by the headers/content decomposition. -/
def mpParts (boundary text : List Nat) : List (List Nat × Option (List Nat)) :=
  ((splitOnList (strBytes "--" ++ boundary) text).filter
      (fun part => !(jsTrim part).isEmpty && !containsSub part (strBytes "--\r\n"))).map
    (fun part => ((mpSegments part).headD [], (mpSegments part).get? 1))

/-- One part as located in the response: its declared `Content-Range`
(`start` inclusive, `endEx` exclusive, i.e. the parsed end digit plus 1),
the offset of its payload in the response (the `indexOf` result, `-1`
when not found) and the payload length. -/
structure LocatedPart where
  declaredStart : Nat
  declaredEnd : Nat
  offset : Int
  len : Nat
  deriving Repr, DecidableEq

/-- The header-parsing / payload-locating loop over the parts, threading
`position`; parts without a `content-range:` match are skipped
(`continue`).  A part with a matched header but an `undefined` content
segment makes the JavaScript throw a `TypeError` at `content.length`. -/
def locateParts (text : List Nat) :
    List (List Nat × Option (List Nat)) → Int → Except String (List LocatedPart)
  | [], _ => .ok []
  | (headers, contentOpt) :: rest, pos =>
    match findContentRange headers with
    | none => locateParts text rest pos
    | some (s, e) =>
      match contentOpt with
      | none => .error "TypeError: cannot read length of undefined"
      | some content =>
        match locateParts text rest
            (jsIndexOfFrom text content (pos + headers.length) + content.length) with
        | .error msg => .error msg
        | .ok lps =>
          .ok (⟨s, e + 1, jsIndexOfFrom text content (pos + headers.length),
                content.length⟩ :: lps)

/-- The per-range update performed for one located part:

```js
ranges.forEach((range, i) => {
  if (!range) return
  if (start <= range[0] && range[1] <= end) {
    const offset = range[0] - start
    const length = range[1] - range[0]
    byteRanges[i] = partBuffer.slice(offset, offset + length)
  }
})
```
where `partBuffer = responseBuffer.slice(contentOffset, contentOffset + content.length)`. -/
def applyPart (buf : List Nat) (lp : LocatedPart) (cur : List Nat)
    (r : Option (Int × Int)) : List Nat :=
  match r with
  | none => cur
  | some (r0, r1) =>
    if (lp.declaredStart : Int) ≤ r0 ∧ r1 ≤ (lp.declaredEnd : Int) then
      jsArraySlice (jsArraySlice buf lp.offset (lp.offset + lp.len))
        (r0 - lp.declaredStart) (r0 - lp.declaredStart + (r1 - r0))
    else cur

/-- The whole parts loop, updating the `byteRanges` array part by part. -/
def applyParts (buf : List Nat) (lps : List LocatedPart)
    (cur : List (List Nat)) (ranges : List (Option (Int × Int))) :
    List (List Nat) :=
  lps.foldl (fun acc lp => List.zipWith (applyPart buf lp) acc ranges) cur

/-- An HTTP response as observed by `byteRangesFromUrl`: the `ok` flag,
the `content-type` header (absent is `none`) and the binary body. -/
structure HttpResponse where
  ok : Bool
  contentType : Option (List Nat)
  body : List Nat

/-- The Range request headers issued by `byteRangesFromUrl`: none when
every entry is `null` (the early return happens before the single
`fetch`), otherwise exactly one comma-joined multi-range header
`bytes=${start}-${end - 1},…` over the non-null ranges in order. -/
def byteRangesRequests (ranges : List (Option (Int × Int))) : List (List Nat) :=
  if !(ranges.any Option.isSome) then []
  else
    [strBytes "bytes=" ++ List.intercalate (strBytes ",")
      ((ranges.filterMap id).map
        (fun r => strBytes (toString r.1 ++ "-" ++ toString (r.2 - 1))))]

/-- Embedding of `byteRangesFromUrl`.  The `fetch` is modelled by
passing the response it would produce; `resp.body` plays both the role of
`responseBuffer` and (by the windows-1252 position-preserving decode) of
`responseText`. -/
def byteRangesResult (trust : Bool) (resp : HttpResponse)
    (ranges : List (Option (Int × Int))) : Except String (List (List Nat)) :=
  if !(ranges.any Option.isSome) then .ok (ranges.map (fun _ => []))
  else if !resp.ok then .error "fetch failed"
  else
    match detectBoundary trust resp.contentType resp.body with
    | none =>
      .ok (List.zipWith
        (fun cur r => match r with
          | none => cur
          | some (s, e) => jsArraySlice resp.body s e)
        (ranges.map (fun _ => [])) ranges)
    | some boundary =>
      if boundary = [] then
        .ok (List.zipWith
          (fun cur r => match r with
            | none => cur
            | some (s, e) => jsArraySlice resp.body s e)
          (ranges.map (fun _ => [])) ranges)
      else
        match locateParts resp.body (mpParts boundary resp.body) 0 with
        | .error msg => .error msg
        | .ok lps => .ok (applyParts resp.body lps (ranges.map (fun _ => [])) ranges)

/-- The value the returned array holds at a slot whose requested range is
`r`, when the response was not split as multipart: `null` keeps the
initial empty buffer, otherwise `responseBuffer.slice(start, end)`. -/
def slotBlob (buf : List Nat) (r : Option (Int × Int)) : List Nat :=
  match r with
  | none => []
  | some (s, e) => jsArraySlice buf s e

/-- The value the returned array holds at a slot whose requested range is
`r`, when the response was split into the located parts `lps`. -/
def slotMultipart (buf : List Nat) (lps : List LocatedPart)
    (r : Option (Int × Int)) : List Nat :=
  lps.foldl (fun cur lp => applyPart buf lp cur r) []

/-- The specification's description of the boundary-sniffing rule, stated
on the trimmed decoded body: it begins, at position 0, with a line of the
form `--boundary` (a non-empty whitespace-free token followed by a line
break or the end), and it ends with `--boundary--` for the same
boundary. -/
def sniffCondition (trimmed : List Nat) : Prop :=
  ∃ b, b ≠ [] ∧ (∀ c ∈ b, isJsWs c = false) ∧
    (∃ rest, trimmed = strBytes "--" ++ b ++ rest ∧
       (rest = [] ∨ isLineTerm (rest.headD 0) = true)) ∧
    (strBytes "--" ++ b ++ strBytes "--").isSuffixOf trimmed = true

/-- A sample `multipart/byteranges` body serving the declared ranges
`[10, 20)` and `[100, 110)` of a 200-byte resource. -/
def sampleMultipartBody : List Nat :=
  strBytes ("--BOUND\r\ncontent-type: text/plain\r\ncontent-range: bytes 10-19/200\r\n\r\nABCDEFGHIJ\r\n--BOUND\r\ncontent-range: bytes 100-109/200\r\n\r\nqrstuvwxyz\r\n--BOUND--")

/-! ## asyncBufferFromUrl (src/utils.js lines 228-245)

```js
async slice(start, end) {
  // fetch byte range from url
  const headers = new Headers(init.headers)
  const endStr = end === undefined ? '' : end - 1
  headers.set('Range', `bytes=${start}-${endStr}`)
  const res = await fetch(url, { ...init, headers })
  if (!res.ok || !res.body) throw new Error(`fetch failed ${res.status}`)
  return res.arrayBuffer()
}
```
-/

/-- The Range header value built by one `slice(start, end)` call of the
AsyncBuffer returned by `asyncBufferFromUrl`. -/
def asyncUrlRangeHeader (start : Int) (endOpt : Option Int) : String :=
  let endStr := match endOpt with
    | none => ""
    | some e => toString (e - 1)
  "bytes=" ++ toString start ++ "-" ++ endStr

/-- The HTTP requests issued by one `slice(start, end)` call: the body
contains a single `fetch`, so exactly one request, carrying the Range
header. -/
def asyncUrlSliceRequests (start : Int) (endOpt : Option Int) : List String :=
  [asyncUrlRangeHeader start endOpt]

/-- HTTP byte-range semantics of a Range header value, for a resource of
`n` bytes (RFC 9110): `bytes=s-e` (decimal, inclusive last byte) denotes
the byte positions `[s, min(e+1, n))`, and the open-ended `bytes=s-`
denotes `[s, n)` — the range extending to the end of the file. -/
def rangeHeaderDenotes (header : String) (n : Nat) (ixs : List Nat) : Prop :=
  (∃ s, header = "bytes=" ++ toString s ++ "-"
    ∧ ixs = List.range' s (n - s)) ∨
  (∃ s e, header = "bytes=" ++ toString s ++ "-" ++ toString e
    ∧ ixs = List.range' s (min (e + 1) n - s))

/-! ## Lemmas about cachedAsyncBuffer -/

/-- A successful `slice` call leaves its key mapped to the returned promise. -/
theorem cachedSlice_lookup (bl : Int) (s : CacheState) (a : Int)
    (e : Option Int) (p : Nat) (s' : CacheState)
    (h : cachedSlice bl s a e = .ok (p, s')) :
    ∃ key, cacheKey a e (some bl) = .ok key ∧ s'.cache.lookup key = some p := by
  unfold cachedSlice at h
  split at h
  · exact absurd h (by simp)
  · rename_i key hk
    split at h
    · rename_i cached hl
      simp only [Except.ok.injEq, Prod.mk.injEq] at h
      exact ⟨key, hk, by rw [← h.2, hl, h.1]⟩
    · rename_i hl
      simp only [Except.ok.injEq, Prod.mk.injEq] at h
      refine ⟨key, hk, ?_⟩
      rw [← h.2]
      simp [List.lookup, h.1]

/-- A successful `slice` call never removes or shadows an existing
key-to-promise binding in the cache. -/
theorem cachedSlice_preserves_lookup (bl : Int) (s : CacheState) (a : Int)
    (e : Option Int) (q : Nat) (st' : CacheState) (k : String) (p : Nat)
    (hc : cachedSlice bl s a e = .ok (q, st'))
    (h : s.cache.lookup k = some p) : st'.cache.lookup k = some p := by
  unfold cachedSlice at hc
  split at hc
  · exact absurd hc (by simp)
  · rename_i key hk
    split at hc
    · rename_i cached hl
      simp only [Except.ok.injEq, Prod.mk.injEq] at hc
      rw [← hc.2]; exact h
    · rename_i hl
      simp only [Except.ok.injEq, Prod.mk.injEq] at hc
      have hne : k ≠ key := by
        intro hkk; rw [hkk, hl] at h; cases h
      have hbe : (k == key) = false := beq_eq_false_iff_ne.mpr hne
      rw [← hc.2]
      simpa [List.lookup, hbe] using h

/-! ## Lemmas about byteRangesFromUrl -/

/-- Zipping a list with its own image under a map is a pointwise map. -/
theorem zipWith_map_self {α β γ : Type} (g : β → α → γ) (f0 : α → β)
    (l : List α) :
    List.zipWith g (l.map f0) l = l.map (fun r => g (f0 r) r) := by
  induction l with
  | nil => rfl
  | cons a t ih => simp [ih]

/-- The parts loop acts pointwise: starting from a pointwise-defined
`byteRanges` array, each slot evolves independently of the others. -/
theorem applyParts_map (buf : List Nat) (lps : List LocatedPart)
    (ranges : List (Option (Int × Int)))
    (f0 : Option (Int × Int) → List Nat) :
    applyParts buf lps (ranges.map f0) ranges
      = ranges.map
          (fun r => lps.foldl (fun cur lp => applyPart buf lp cur r) (f0 r)) := by
  induction lps generalizing f0 with
  | nil => rfl
  | cons lp rest ih =>
    show applyParts buf rest
        (List.zipWith (applyPart buf lp) (ranges.map f0) ranges) ranges = _
    rw [zipWith_map_self, ih (fun r => applyPart buf lp (f0 r) r)]
    rfl

/-- A `null` range slot is never touched by the parts loop. -/
theorem slotMultipart_none (buf : List Nat) (lps : List LocatedPart) :
    slotMultipart buf lps none = [] := by
  unfold slotMultipart
  induction lps with
  | nil => rfl
  | cons lp rest ih => exact ih

/-- Every successful run of `byteRangesFromUrl` produces the pointwise
image of the requested ranges under a single slot function that sends
`null` to the empty buffer. -/
theorem byteRangesResult_ok_map (trust : Bool) (resp : HttpResponse)
    (ranges : List (Option (Int × Int))) (out : List (List Nat))
    (h : byteRangesResult trust resp ranges = .ok out) :
    ∃ f : Option (Int × Int) → List Nat, f none = [] ∧ out = ranges.map f := by
  unfold byteRangesResult at h
  split at h
  · refine ⟨fun _ => [], rfl, ?_⟩
    injection h with h
    exact h.symm
  · split at h
    · exact absurd h (by simp)
    · split at h
      · injection h with h
        refine ⟨slotBlob resp.body, rfl, ?_⟩
        rw [← h, zipWith_map_self]
        have : (fun r => (fun (cur : List Nat) (r : Option (Int × Int)) =>
            match r with
            | none => cur
            | some (s, e) => jsArraySlice resp.body s e) [] r)
              = slotBlob resp.body := by
          funext r
          cases r with
          | none => rfl
          | some p => rfl
        rw [this]
      · rename_i boundary
        split at h
        · injection h with h
          refine ⟨slotBlob resp.body, rfl, ?_⟩
          rw [← h, zipWith_map_self]
          have : (fun r => (fun (cur : List Nat) (r : Option (Int × Int)) =>
              match r with
              | none => cur
              | some (s, e) => jsArraySlice resp.body s e) [] r)
                = slotBlob resp.body := by
            funext r
            cases r with
            | none => rfl
            | some p => rfl
          rw [this]
        · split at h
          · exact absurd h (by simp)
          · rename_i lps hlps
            injection h with h
            refine ⟨slotMultipart resp.body lps, slotMultipart_none _ _, ?_⟩
            rw [← h, applyParts_map]
            rfl

/-- Dropping the length of the `takeWhile` prefix leaves the `dropWhile`
suffix. -/
theorem drop_length_takeWhile (p : Nat → Bool) (l : List Nat) :
    l.drop (l.takeWhile p).length = l.dropWhile p := by
  induction l with
  | nil => rfl
  | cons c t ih =>
    cases hp : p c with
    | true => simp [List.takeWhile_cons, List.dropWhile_cons, hp, ih]
    | false => simp [List.takeWhile_cons, List.dropWhile_cons, hp]

/-- `takeWhile` of a concatenation whose first half satisfies `p`
throughout and whose second half starts with a failing element. -/
theorem takeWhile_append_all (p : Nat → Bool) (b rest : List Nat)
    (hb : ∀ c ∈ b, p c = true)
    (hr : rest = [] ∨ p (rest.headD 0) = false) :
    (b ++ rest).takeWhile p = b := by
  induction b with
  | nil =>
    rcases hr with rfl | hr
    · rfl
    · cases rest with
      | nil => rfl
      | cons r rs =>
        simp only [List.headD_cons] at hr
        simp [List.takeWhile_cons, hr]
  | cons c t ih =>
    have hc : p c = true := hb c (by simp)
    simp [List.takeWhile_cons, hc, ih (fun x hx => hb x (by simp [hx]))]

/-- A LineTerminator character is whitespace. -/
theorem isLineTerm_isJsWs (c : Nat) (h : isLineTerm c = true) :
    isJsWs c = true := by
  simp only [isLineTerm, Bool.or_eq_true, decide_eq_true_eq] at h
  rcases h with rfl | rfl <;> rfl

/-- Inversion for the anchored boundary-line match: it succeeds with
capture `b` exactly when the text is `--b` followed by a line break or
the end, for a non-empty whitespace-free `b`. -/
theorem boundaryLineAt_some_iff (t b : List Nat) :
    boundaryLineAt t = some b ↔
      (b ≠ [] ∧ (∀ c ∈ b, isJsWs c = false) ∧
       ∃ rest, t = strBytes "--" ++ b ++ rest ∧
         (rest = [] ∨ isLineTerm (rest.headD 0) = true)) := by
  constructor
  · intro h
    unfold boundaryLineAt at h
    split at h
    · rename_i hpre
      split at h
      · rename_i hcond
        injection h with h
        subst h
        obtain ⟨hne, hafter⟩ := hcond
        refine ⟨hne, fun c hc => ?_, boundaryAfter t, ?_, hafter⟩
        · have hmem := List.mem_takeWhile_imp hc
          simpa using hmem
        · have hsplit : t = strBytes "--" ++ t.drop 2 := by
            have hp := List.prefix_iff_eq_append.mp
              (List.isPrefixOf_iff_prefix.mp hpre)
            have hlen : (strBytes "--").length = 2 := rfl
            rw [hlen] at hp
            exact hp.symm
          have h2 : boundaryRun t ++ boundaryAfter t = t.drop 2 := by
            simp only [boundaryRun, boundaryAfter]
            rw [drop_length_takeWhile]
            exact List.takeWhile_append_dropWhile _ _
          conv_lhs => rw [hsplit, ← h2]
          exact (List.append_assoc _ _ _).symm
      · exact absurd h (by simp)
    · exact absurd h (by simp)
  · rintro ⟨hne, hws, rest, rfl, hrest⟩
    have hassoc : strBytes "--" ++ b ++ rest = strBytes "--" ++ (b ++ rest) :=
      List.append_assoc _ _ _
    have hpre : (strBytes "--").isPrefixOf (strBytes "--" ++ b ++ rest) = true := by
      rw [List.isPrefixOf_iff_prefix, hassoc]
      exact List.prefix_append _ _
    have hdrop : (strBytes "--" ++ b ++ rest).drop 2 = b ++ rest := by
      rw [hassoc]
      have hlen : (strBytes "--").length = 2 := rfl
      rw [← hlen]
      exact List.drop_left _ _
    have hrun : boundaryRun (strBytes "--" ++ b ++ rest) = b := by
      unfold boundaryRun
      rw [hdrop]
      apply takeWhile_append_all
      · intro c hc
        show (!isJsWs c) = true
        rw [hws c hc]
        rfl
      · rcases hrest with rfl | hterm
        · exact Or.inl rfl
        · refine Or.inr ?_
          show (!isJsWs (rest.headD 0)) = false
          rw [isLineTerm_isJsWs _ hterm]
          rfl
    have hafter : boundaryAfter (strBytes "--" ++ b ++ rest) = rest := by
      unfold boundaryAfter
      rw [hdrop, hrun]
      exact List.drop_left _ _
    unfold boundaryLineAt
    rw [if_pos hpre, hrun, hafter]
    rw [if_pos ⟨hne, hrest⟩]

/-- The slot update of the non-multipart branch, applied to the initial
empty buffer, is `slotBlob`. -/
theorem slotBlob_fun (buf : List Nat) :
    (fun r => (fun (cur : List Nat) (r : Option (Int × Int)) =>
        match r with
        | none => cur
        | some (s, e) => jsArraySlice buf s e) [] r) = slotBlob buf := by
  funext r
  cases r with
  | none => rfl
  | some p => rfl

/-- With `trustContentType` false, the boundary is definitionally the
sniffed one. -/
theorem detectBoundary_false_eq (ct : Option (List Nat)) (text : List Nat) :
    detectBoundary false ct text
      = match boundaryLineAt (jsTrim text) with
        | some b =>
          if (strBytes "--" ++ b ++ strBytes "--").isSuffixOf (jsTrim text) then
            some b
          else none
        | none => none := rfl

/-- Inversion of the sniffed boundary: it is `b` exactly when the
anchored line match captures `b` and the trimmed text ends with
`--b--`. -/
theorem detectBoundary_false_some_iff (ct : Option (List Nat))
    (text : List Nat) (b : List Nat) :
    detectBoundary false ct text = some b ↔
      (boundaryLineAt (jsTrim text) = some b ∧
       (strBytes "--" ++ b ++ strBytes "--").isSuffixOf (jsTrim text) = true) := by
  rw [detectBoundary_false_eq]
  rcases hbl : boundaryLineAt (jsTrim text) with _ | b'
  · simp
  · dsimp only
    split
    · rename_i hsuf
      constructor
      · intro h
        injection h with h
        subst h
        exact ⟨rfl, hsuf⟩
      · rintro ⟨h1, _⟩
        injection h1 with h1
        rw [h1]
    · rename_i hsuf
      constructor
      · intro h
        cases h
      · rintro ⟨h1, h2⟩
        injection h1 with h1
        subst h1
        exact absurd h2 hsuf

/-- A slot whose requested range no part contains keeps its initial empty
buffer through the whole parts loop. -/
theorem foldl_applyPart_nil (buf : List Nat) (r0 r1 : Int)
    (lps : List LocatedPart)
    (hnc : ∀ lp ∈ lps,
      ¬((lp.declaredStart : Int) ≤ r0 ∧ r1 ≤ (lp.declaredEnd : Int))) :
    lps.foldl (fun cur lp => applyPart buf lp cur (some (r0, r1))) [] = [] := by
  induction lps with
  | nil => rfl
  | cons lp rest ih =>
    rw [List.foldl_cons]
    have hstep : applyPart buf lp [] (some (r0, r1)) = [] := by
      simp only [applyPart]
      rw [if_neg (hnc lp (by simp))]
    rw [hstep]
    exact ih (fun x hx => hnc x (by simp [hx]))

/-- An in-bounds non-negative slice index is not re-interpreted. -/
theorem jsRel_of_nonneg_le (len : Nat) (x : Int) (h0 : 0 ≤ x)
    (h1 : x ≤ (len : Int)) : jsRel len x = x.toNat := by
  unfold jsRel
  rw [if_neg (by omega)]
  exact Nat.min_eq_left (by omega)

/-- `ArrayBuffer.slice` with in-bounds indices is drop-then-take. -/
theorem jsArraySlice_spec (l : List Nat) (a b : Int) (h0 : 0 ≤ a)
    (hab : a ≤ b) (hb : b ≤ (l.length : Int)) :
    jsArraySlice l a b = (l.drop a.toNat).take (b.toNat - a.toNat) := by
  unfold jsArraySlice
  rw [jsRel_of_nonneg_le _ _ h0 (by omega), jsRel_of_nonneg_le _ _ (by omega) hb]

/-- Unfolding one step of `runSlices`. -/
theorem runSlices_cons (bl : Int) (s : CacheState) (r : Int × Option Int)
    (rs : List (Int × Option Int)) :
    runSlices bl s (r :: rs)
      = runSlices bl (match cachedSlice bl s r.1 r.2 with
          | .error _ => s
          | .ok (_, st') => st') rs := rfl

/-- Cache entries persist through any further sequence of `slice` calls. -/
theorem lookup_runSlices (bl : Int) (k : String) (p : Nat)
    (reqs : List (Int × Option Int)) (s : CacheState)
    (h : s.cache.lookup k = some p) :
    (runSlices bl s reqs).cache.lookup k = some p := by
  induction reqs generalizing s with
  | nil => exact h
  | cons r rs ih =>
    rw [runSlices_cons]
    apply ih
    split
    · exact h
    · rename_i q st' hc
      exact cachedSlice_preserves_lookup bl s r.1 r.2 q st' k p hc h

end Hyparquet

open Hyparquet

/-- C1: the claim as stated fails at the boundary `start = end = size` with
`size > 0`: the absolute range `[1,1)` of a file of size 1 has key `"1,1"`,
while the suffix range `start - size = 0` has key `"0,1"` (a `0` suffix
start is not negative, so it is treated as the absolute range `[0, size)`). -/
theorem cacheKey_suffix_collapse_cex :
    cacheKey 1 (some 1) (some 1) ≠ cacheKey (1 - 1) none (some 1) := by
  intro h
  have h1 : cacheKey 1 (some 1) (some 1) = .ok "1,1" := rfl
  have h2 : cacheKey (1 - 1) none (some 1) = .ok "0,1" := rfl
  rw [h1, h2] at h
  injection h with h
  exact absurd h (by decide)

/-- C1 (amended): for `0 ≤ start < end = size` (or the degenerate
`start = size = 0`), the canonical cache key of the absolute range
`[start, size)` equals the key of the equivalent suffix range
`start - size`, so both collapse to the same cache entry. -/
theorem cacheKey_suffix_collapse (start size : Int) (h0 : 0 ≤ start)
    (h1 : start < size ∨ (start = 0 ∧ size = 0)) :
    cacheKey start (some size) (some size)
      = cacheKey (start - size) none (some size) := by
  rcases h1 with h | ⟨rfl, rfl⟩
  · have hnn : ¬ start < 0 := by omega
    have hneg : start - size < 0 := by omega
    have hle : ¬ start > size := by omega
    simp only [cacheKey, if_neg hnn, if_pos hneg, if_neg hle]
    have : size + (start - size) = start := by ring
    rw [this]
  · rfl

/-- C1 witness: concrete instance `start = 2`, `size = 5`. -/
theorem cacheKey_suffix_collapse_witness :
    cacheKey 2 (some 5) (some 5) = cacheKey (2 - 5) none (some 5) :=
  cacheKey_suffix_collapse 2 5 (by decide) (Or.inl (by decide))

/-- C2: at most one underlying read per canonical key: if a `slice` call on
the cached buffer returned promise `p`, then any later call whose arguments
map to the same canonical key — after arbitrary interleaved calls — returns
the identical promise `p` and leaves the state (in particular the list of
underlying `slice` invocations) unchanged: no duplicate I/O is issued. -/
theorem cachedSlice_no_duplicate_read (bl : Int) (s : CacheState)
    (a1 : Int) (e1 : Option Int) (a2 : Int) (e2 : Option Int)
    (p : Nat) (s1 : CacheState) (reqs : List (Int × Option Int))
    (hkey : cacheKey a2 e2 (some bl) = cacheKey a1 e1 (some bl))
    (hfirst : cachedSlice bl s a1 e1 = .ok (p, s1)) :
    cachedSlice bl (runSlices bl s1 reqs) a2 e2
      = .ok (p, runSlices bl s1 reqs) := by
  obtain ⟨key, hk1, hl1⟩ := cachedSlice_lookup bl s a1 e1 p s1 hfirst
  have hl2 : (runSlices bl s1 reqs).cache.lookup key = some p :=
    lookup_runSlices bl key p reqs s1 hl1
  unfold cachedSlice
  rw [hkey, hk1]
  dsimp only
  rw [hl2]

/-- C2 witness: a first read of `[0, 5)` on a file of length 10, an
interleaved read of `[6, 8)`, then a repeated read of `[0, 5)` returning
the original promise `0` without a new underlying read. -/
theorem cachedSlice_no_duplicate_read_witness :
    cachedSlice 10
        (runSlices 10 ⟨[("0,5", 0)], [(0, some 5)]⟩ [(6, some 8)]) 0 (some 5)
      = .ok (0, runSlices 10 ⟨[("0,5", 0)], [(0, some 5)]⟩ [(6, some 8)]) :=
  cachedSlice_no_duplicate_read 10 CacheState.init 0 (some 5) 0 (some 5) 0
    ⟨[("0,5", 0)], [(0, some 5)]⟩ [(6, some 8)] rfl rfl

/-- C6: an invalid range — negative `start` with a defined `end`, or
non-negative `start` greater than `end` — makes `slice` on a cached buffer
throw (the error coming from `cacheKey`), and the underlying source's
`slice` is never invoked: the state, hence the list of issued reads, is
unchanged. -/
theorem cachedSlice_invalid_range (bl : Int) (s : CacheState) (start : Int)
    (endOpt : Option Int)
    (h : (start < 0 ∧ endOpt ≠ none) ∨
         (0 ≤ start ∧ ∃ e, endOpt = some e ∧ e < start)) :
    (∃ msg, cacheKey start endOpt (some bl) = .error msg) ∧
    (∃ msg, cachedSlice bl s start endOpt = .error msg) ∧
    runSlices bl s [(start, endOpt)] = s := by
  have hkey : ∃ msg, cacheKey start endOpt (some bl) = .error msg := by
    rcases h with ⟨hneg, hdef⟩ | ⟨hnn, e, rfl, hlt⟩
    · rcases hend : endOpt with _ | e
      · exact absurd hend hdef
      · subst hend
        refine ⟨"invalid suffix range [" ++ toString start ++ ", "
          ++ toString e ++ "]", ?_⟩
        unfold cacheKey
        rw [if_pos hneg]
    · have hnlt : ¬ start < 0 := by omega
      refine ⟨"invalid empty range [" ++ toString start ++ ", "
        ++ toString e ++ "]", ?_⟩
      unfold cacheKey
      rw [if_neg hnlt]
      dsimp only
      rw [if_pos (by omega : start > e)]
  obtain ⟨msg, hmsg⟩ := hkey
  refine ⟨⟨msg, hmsg⟩, ⟨msg, ?_⟩, ?_⟩
  · unfold cachedSlice; rw [hmsg]
  · show (match cachedSlice bl s start endOpt with
      | .error _ => s | .ok (_, st') => st') = s
    unfold cachedSlice; rw [hmsg]

/-- C6 witness: the suffix-with-end range `slice(-1, 3)` on a file of
length 10 throws from `cacheKey` and issues no underlying read. -/
theorem cachedSlice_invalid_range_witness :
    (∃ msg, cacheKey (-1) (some 3) (some 10) = .error msg) ∧
    (∃ msg, cachedSlice 10 CacheState.init (-1) (some 3) = .error msg) ∧
    runSlices 10 CacheState.init [(-1, some 3)] = CacheState.init :=
  cachedSlice_invalid_range 10 CacheState.init (-1) (some 3)
    (Or.inl ⟨by decide, by decide⟩)

/-- C9: `extent` never computes a minimum: `let min, max = array[0]` leaves
`min` uninitialized (`undefined`), and `value < undefined` is always false,
so the first component of the result is always `undefined`.  On the array
`[3, 1, 2]` the code returns `(undefined, 3)`, not `(1, 3)`. -/
theorem extent_min_is_undefined :
    extent [3, 1, 2] = (none, some 3) ∧ (extent [3, 1, 2]).1 ≠ some 1 := by
  decide

/-- C8: a single-range read `slice(s, e+1)` of `asyncBufferFromUrl`
issues exactly one HTTP request, whose Range header denotes exactly the
requested bytes `[s, e+1)`; with the end omitted, the single issued
header denotes the range extending to the end of the file, `[s, n)`. -/
theorem asyncUrl_slice_single_request (s e n : Nat)
    (h1 : s ≤ e + 1) (h2 : e + 1 ≤ n) :
    (asyncUrlSliceRequests (s : Int) (some ((e : Int) + 1))).length = 1 ∧
    rangeHeaderDenotes (asyncUrlRangeHeader (s : Int) (some ((e : Int) + 1)))
      n (List.range' s (e + 1 - s)) ∧
    (asyncUrlSliceRequests (s : Int) none).length = 1 ∧
    rangeHeaderDenotes (asyncUrlRangeHeader (s : Int) none)
      n (List.range' s (n - s)) := by
  refine ⟨rfl, Or.inr ⟨s, e, ?_, ?_⟩, rfl, Or.inl ⟨s, ?_, rfl⟩⟩
  · show "bytes=" ++ toString (s : Int) ++ "-" ++ toString ((e : Int) + 1 - 1)
      = "bytes=" ++ toString s ++ "-" ++ toString e
    have h3 : (e : Int) + 1 - 1 = (e : Int) := by ring
    rw [h3]
    have h4 : toString (s : Int) = toString s := rfl
    have h5 : toString (e : Int) = toString e := rfl
    rw [h4, h5]
  · have : min (e + 1) n = e + 1 := by omega
    rw [this]
  · show "bytes=" ++ toString (s : Int) ++ "-" ++ "" = "bytes=" ++ toString s ++ "-"
    have h4 : toString (s : Int) = toString s := rfl
    rw [h4]
    exact String.append_empty _

/-- C10: when every requested range is `null` (which includes the empty
request list), `byteRangesFromUrl` returns one empty buffer per input slot
and returns before the `fetch`: no HTTP request is issued, whatever the
response would have been. -/
theorem byteRanges_all_null_no_fetch (trust : Bool) (resp : HttpResponse)
    (ranges : List (Option (Int × Int))) (h : ∀ r ∈ ranges, r = none) :
    byteRangesResult trust resp ranges = .ok (ranges.map (fun _ => [])) ∧
    byteRangesRequests ranges = [] := by
  have hany : ranges.any Option.isSome = false := by
    rw [Bool.eq_false_iff]
    intro hc
    rw [List.any_eq_true] at hc
    obtain ⟨r, hr, hs⟩ := hc
    rw [h r hr] at hs
    exact absurd hs (by simp)
  constructor
  · unfold byteRangesResult
    rw [hany]
    rfl
  · unfold byteRangesRequests
    rw [hany]
    rfl

/-- C10 witness: two `null` ranges against a failing response still yield
two empty buffers and no request. -/
theorem byteRanges_all_null_no_fetch_witness :
    byteRangesResult false ⟨false, none, []⟩
        ([none, none] : List (Option (Int × Int)))
      = .ok (([none, none] : List (Option (Int × Int))).map (fun _ => [])) ∧
    byteRangesRequests ([none, none] : List (Option (Int × Int))) = [] :=
  byteRanges_all_null_no_fetch false ⟨false, none, []⟩ [none, none] (by decide)

/-- C3: a successful `byteRangesFromUrl` run returns exactly one buffer
per input slot; a `null` entry yields an empty buffer at its index; and
the buffer at a slot is a function of that slot's requested range alone
(two slots requesting the same range receive the same buffer), so index
`i` of the output corresponds to index `i` of the input independently of
part order. -/
theorem byteRanges_slots (trust : Bool) (resp : HttpResponse)
    (ranges : List (Option (Int × Int))) (out : List (List Nat))
    (h : byteRangesResult trust resp ranges = .ok out) :
    out.length = ranges.length ∧
    (∀ i, ranges.get? i = some none → out.get? i = some []) ∧
    (∀ i j ri rj, ranges.get? i = some ri → ranges.get? j = some rj →
      ri = rj → out.get? i = out.get? j) := by
  obtain ⟨f, hf0, hmap⟩ := byteRangesResult_ok_map trust resp ranges out h
  subst hmap
  refine ⟨List.length_map _ _, ?_, ?_⟩
  · intro i hi
    rw [List.get?_map, hi]
    simp [hf0]
  · intro i j ri rj hi hj hij
    rw [List.get?_map, List.get?_map, hi, hj, hij]

/-- C3 witness: a plain (non-multipart) response serving a two-slot
request `[[2,5), null]`: the output has two slots, slot 0 holds the
requested bytes and slot 1 (the `null` request) the empty buffer. -/
theorem byteRanges_slots_witness :
    byteRangesResult false ⟨true, none, strBytes "0123456789"⟩
        [some (2, 5), none] = .ok [strBytes "234", []] ∧
    ([strBytes "234", ([] : List Nat)] : List (List Nat)).get? 1 = some [] := by
  have h : byteRangesResult false ⟨true, none, strBytes "0123456789"⟩
      [some (2, 5), none] = .ok [strBytes "234", []] := rfl
  exact ⟨h, (byteRanges_slots false ⟨true, none, strBytes "0123456789"⟩
    [some (2, 5), none] [strBytes "234", []] h).2.1 1 rfl⟩

/-- C4: with `trustContentType` false, `byteRangesFromUrl` settles on a
multipart boundary exactly when the trimmed decoded body begins, at
position 0, with a line of the form `--boundary` and ends with
`--boundary--` (the sniffed boundary is then never the empty string, so
the multipart split is performed in exactly these cases); otherwise the
whole response is treated as one contiguous blob out of which each
requested non-null range `[start, end)` is sliced
(`responseBuffer.slice(start, end)`). -/
theorem byteRanges_multipart_iff_sniff (resp : HttpResponse)
    (ranges : List (Option (Int × Int)))
    (hsome : ranges.any Option.isSome = true) (hok : resp.ok = true) :
    ((detectBoundary false resp.contentType resp.body).isSome = true ↔
        sniffCondition (jsTrim resp.body)) ∧
    (∀ b, detectBoundary false resp.contentType resp.body = some b → b ≠ []) ∧
    (detectBoundary false resp.contentType resp.body = none →
      byteRangesResult false resp ranges
        = .ok (ranges.map (slotBlob resp.body))) := by
  refine ⟨?_, ?_, ?_⟩
  · constructor
    · intro h
      obtain ⟨b, hb⟩ := Option.isSome_iff_exists.mp h
      obtain ⟨hbl, hsuf⟩ := (detectBoundary_false_some_iff _ _ b).mp hb
      obtain ⟨hne, hws, rest, heq, hrest⟩ := (boundaryLineAt_some_iff _ b).mp hbl
      exact ⟨b, hne, hws, ⟨rest, heq, hrest⟩, hsuf⟩
    · rintro ⟨b, hne, hws, hline, hsuf⟩
      have hbl : boundaryLineAt (jsTrim resp.body) = some b :=
        (boundaryLineAt_some_iff _ b).mpr ⟨hne, hws, hline⟩
      exact Option.isSome_iff_exists.mpr
        ⟨b, (detectBoundary_false_some_iff _ _ b).mpr ⟨hbl, hsuf⟩⟩
  · intro b hb
    obtain ⟨hbl, _⟩ := (detectBoundary_false_some_iff _ _ b).mp hb
    exact ((boundaryLineAt_some_iff _ b).mp hbl).1
  · intro hnone
    unfold byteRangesResult
    simp only [hsome, hok, hnone, Bool.not_true, if_false]
    rw [zipWith_map_self, slotBlob_fun]
    rfl

/-- C4 witness: the sample multipart body with one non-null requested
range. -/
theorem byteRanges_multipart_iff_sniff_witness :
    ((detectBoundary false none sampleMultipartBody).isSome = true ↔
        sniffCondition (jsTrim sampleMultipartBody)) ∧
    (∀ b, detectBoundary false none sampleMultipartBody = some b → b ≠ []) ∧
    (detectBoundary false none sampleMultipartBody = none →
      byteRangesResult false ⟨true, none, sampleMultipartBody⟩
          [some ((0 : Int), (1 : Int))]
        = .ok ([some ((0 : Int), (1 : Int))].map (slotBlob sampleMultipartBody))) :=
  byteRanges_multipart_iff_sniff ⟨true, none, sampleMultipartBody⟩
    [some (0, 1)] rfl rfl

/-- C7: in a multipart split, a requested sub-range that is not fully
contained in any part of the response yields the empty buffer at its slot
of the returned list, with no error. -/
theorem byteRanges_unserved_slot_empty (trust : Bool) (resp : HttpResponse)
    (ranges : List (Option (Int × Int))) (out : List (List Nat))
    (boundary : List Nat) (lps : List LocatedPart) (i : Nat) (r0 r1 : Int)
    (hb : detectBoundary trust resp.contentType resp.body = some boundary)
    (hbne : boundary ≠ [])
    (hlps : locateParts resp.body (mpParts boundary resp.body) 0 = .ok lps)
    (hout : byteRangesResult trust resp ranges = .ok out)
    (hi : ranges.get? i = some (some (r0, r1)))
    (hnc : ∀ lp ∈ lps,
      ¬((lp.declaredStart : Int) ≤ r0 ∧ r1 ≤ (lp.declaredEnd : Int))) :
    out.get? i = some [] := by
  have hany : ranges.any Option.isSome = true :=
    List.any_eq_true.mpr ⟨some (r0, r1), List.get?_mem hi, rfl⟩
  have hok : resp.ok = true := by
    cases hoktest : resp.ok
    · unfold byteRangesResult at hout
      simp [hany, hoktest] at hout
    · rfl
  unfold byteRangesResult at hout
  simp only [hany, hok, hb, Bool.not_true, if_neg hbne, hlps] at hout
  rw [if_neg (by simp : ¬(false = true)), if_neg (by simp : ¬(false = true))]
    at hout
  injection hout with hout
  subst hout
  rw [applyParts_map, List.get?_map, hi]
  simp only [Option.map_some']
  exact congrArg some (foldl_applyPart_nil resp.body r0 r1 lps hnc)

set_option maxRecDepth 8192 in
/-- C7 witness: the sample multipart body serves `[10,20)` and
`[100,110)`; the requested range `[10, 25)` is contained in neither part
and its (only) slot comes back as the empty buffer. -/
theorem byteRanges_unserved_slot_empty_witness :
    byteRangesResult false ⟨true, none, sampleMultipartBody⟩
        [some ((10 : Int), (25 : Int))] = .ok [[]] ∧
    ([([] : List Nat)] : List (List Nat)).get? 0 = some [] :=
  ⟨rfl, byteRanges_unserved_slot_empty false ⟨true, none, sampleMultipartBody⟩
      [some (10, 25)] [[]] (strBytes "BOUND")
      [⟨10, 20, 69, 10⟩, ⟨100, 110, 126, 10⟩] 0 10 25
      rfl (by decide) rfl rfl rfl (by decide)⟩

/-- C5: during multipart splitting, when the parts loop processes a part
whose `Content-Range` declares `[declaredStart, declaredEnd)` (so
`bytes declaredStart-(declaredEnd-1)`), whose payload was located at
`offset` in the response buffer and has the declared length, every
requested range `[r0, r1)` it fully contains is filled with the bytes of
the original binary response buffer starting at `offset + (r0 -
declaredStart)` and of length `r1 - r0` — offset arithmetic into the
located payload, never reconstructed text. -/
theorem applyPart_fills_from_buffer (buf : List Nat) (lp : LocatedPart)
    (cur : List Nat) (r0 r1 : Int)
    (hwf : lp.declaredStart + lp.len = lp.declaredEnd)
    (hoff : 0 ≤ lp.offset)
    (hbound : lp.offset + (lp.len : Int) ≤ (buf.length : Int))
    (hc0 : (lp.declaredStart : Int) ≤ r0) (hc1 : r1 ≤ (lp.declaredEnd : Int))
    (hr : r0 ≤ r1) :
    applyPart buf lp cur (some (r0, r1))
      = (buf.drop (lp.offset + (r0 - lp.declaredStart)).toNat).take
          (r1 - r0).toNat := by
  simp only [applyPart]
  rw [if_pos ⟨hc0, hc1⟩]
  rw [jsArraySlice_spec buf lp.offset (lp.offset + lp.len) hoff (by omega) hbound]
  have hT : (lp.offset + (lp.len : Int)).toNat - lp.offset.toNat = lp.len := by
    omega
  rw [hT]
  have hplen : ((buf.drop lp.offset.toNat).take lp.len).length = lp.len := by
    rw [List.length_take, List.length_drop]
    omega
  rw [jsArraySlice_spec _ (r0 - lp.declaredStart)
      (r0 - lp.declaredStart + (r1 - r0)) (by omega) (by omega)
      (by rw [hplen]; omega)]
  have hcount : (r0 - (lp.declaredStart : Int) + (r1 - r0)).toNat
      - (r0 - (lp.declaredStart : Int)).toNat = (r1 - r0).toNat := by
    omega
  rw [hcount, List.drop_take, List.drop_drop, List.take_take]
  rw [inf_eq_left.mpr (by omega : (r1 - r0).toNat
    ≤ lp.len - (r0 - (lp.declaredStart : Int)).toNat)]
  have hix : lp.offset.toNat + (r0 - (lp.declaredStart : Int)).toNat
      = (lp.offset + (r0 - (lp.declaredStart : Int))).toNat := by
    omega
  rw [hix]

/-- C5 witness: a 10-byte response containing a part that declares
`[2, 6)` with its 4-byte payload located at offset 3; the contained
request `[3, 5)` receives the 2 response-buffer bytes at offset
`3 + (3 - 2) = 4`. -/
theorem applyPart_fills_from_buffer_witness :
    applyPart (strBytes "0123456789") ⟨2, 6, 3, 4⟩ [] (some ((3 : Int), (5 : Int)))
      = ((strBytes "0123456789").drop
          (((3 : Int) + ((3 : Int) - (2 : Nat))).toNat)).take
          (((5 : Int) - (3 : Int)).toNat) :=
  applyPart_fills_from_buffer (strBytes "0123456789") ⟨2, 6, 3, 4⟩ [] 3 5
    (by decide) (by decide) (by decide) (by decide) (by decide) (by decide)

/-- C8 witness: `slice(3, 8)` on a 20-byte file issues one request whose
header denotes bytes `[3, 8)`; `slice(3)` issues one request denoting
bytes `[3, 20)`. -/
theorem asyncUrl_slice_single_request_witness :
    (asyncUrlSliceRequests (3 : Int) (some ((7 : Int) + 1))).length = 1 ∧
    rangeHeaderDenotes (asyncUrlRangeHeader (3 : Int) (some ((7 : Int) + 1)))
      20 (List.range' 3 (7 + 1 - 3)) ∧
    (asyncUrlSliceRequests (3 : Int) none).length = 1 ∧
    rangeHeaderDenotes (asyncUrlRangeHeader (3 : Int) none)
      20 (List.range' 3 (20 - 3)) :=
  asyncUrl_slice_single_request 3 7 20 (by decide) (by decide)

